import Mathlib

/-!
Verification of the cpp-slice library (Slice / Array / SharedArray and the
UTF transcoding helpers) against its natural-language specification.

The C++ sources are shallowly embedded:
a Slice (a pointer plus a length viewing contiguous elements) is modelled by
the list of its viewed elements, so the pointer arithmetic
of the source, such as returning the sub-view with pointer ptr + first and
length last - first, becomes List.drop and List.take on that list; machine
integers become Nat or Int; bytes and code units are Nat values.
Loops become structural or well-founded recursions that perform the same
tests in the same order as the source loops.
-/

set_option linter.unusedSectionVars false
set_option linter.unusedVariables false

namespace CppSlice

variable {α : Type} [DecidableEq α] [Inhabited α]

/-- Slice.slice in slice.h: asserts first <= last and last <= length, then
returns the sub-view with pointer ptr + first and length last - first. -/
def slice (l : List α) (first last : Nat) : List α :=
  (l.drop first).take (last - first)

/-- The condition of SLICE_ASSERT in Slice.slice. -/
def slice_assert_ok (first last length : Nat) : Prop :=
  first ≤ last ∧ last ≤ length

instance (first last length : Nat) : Decidable (slice_assert_ok first last length) := by
  unfold slice_assert_ok; infer_instance

/-- Array.pop_back(size_t n) in array.h destroys the trailing n elements and
subtracts n from length, so the first length - n elements remain. -/
def pop_back_n (l : List α) (n : Nat) : List α :=
  l.take (l.length - n)

/-- The condition of SLICE_ASSERT in Array.pop_back(size_t n), exactly as the
source writes it: SLICE_ASSERT(n >= this->length). -/
def pop_back_n_assert_ok (length n : Nat) : Prop :=
  n ≥ length

instance (length n : Nat) : Decidable (pop_back_n_assert_ok length n) := by
  unfold pop_back_n_assert_ok; infer_instance

/-- Slice.find_first(element): scans offsets upward from 0 while the element
at the offset differs from c, and returns the offset (length if never found). -/
def find_first_elem (c : α) : List α → Nat
  | [] => 0
  | x :: xs => if x = c then 0 else find_first_elem c xs + 1

/-- Downward scanning loop of Slice.find_last(element): the argument is one
past the highest index still to be examined; index -1 maps to length. -/
def find_last_elem_aux (l : List α) (c : α) : Nat → Nat
  | 0 => l.length
  | i + 1 => if l.getD i default = c then i else find_last_elem_aux l c i

/-- Slice.find_last(element): scans indices downward from length - 1 and
returns length when the element never occurs. -/
def find_last_elem (l : List α) (c : α) : Nat :=
  find_last_elem_aux l c l.length

/-- The inner loop of the subsequence find functions compares the s.length
elements starting at offset i with s. -/
def match_at (l s : List α) (i : Nat) : Prop :=
  (l.drop i).take s.length = s

instance (l s : List α) (i : Nat) : Decidable (match_at l s i) := by
  unfold match_at; infer_instance

/-- Outer loop of Slice.find_first(subsequence): iterates i while
i < length - s.length; the second argument counts the iterations that
remain, so the loop tests exactly the offsets 0 .. length - s.length - 1
(the source computes the bound as a ptrdiff_t; for s.length > length the
Nat subtraction and the negative ptrdiff_t both yield zero iterations).
Returns length when no tested offset matches. -/
def find_first_sub_aux (l s : List α) : Nat → Nat → Nat
  | _, 0 => l.length
  | i, n + 1 => if match_at l s i then i else find_first_sub_aux l s (i + 1) n

/-- Slice.find_first(subsequence): returns 0 for an empty needle, otherwise
runs the scanning loop from offset 0. -/
def find_first_sub (l s : List α) : Nat :=
  if s = [] then 0 else find_first_sub_aux l s 0 (l.length - s.length)

/-- Downward scanning loop of Slice.find_last(subsequence): the argument is
one past the highest offset still to be examined. -/
def find_last_sub_aux (l s : List α) : Nat → Nat
  | 0 => l.length
  | i + 1 => if match_at l s i then i else find_last_sub_aux l s i

/-- Slice.find_last(subsequence): returns length for an empty needle; starts
the downward scan at offset length - s.length when s fits, otherwise the
start index of the source loop is negative and it returns length. -/
def find_last_sub (l s : List α) : Nat :=
  if s = [] then l.length
  else if s.length ≤ l.length then find_last_sub_aux l s (l.length - s.length + 1)
  else l.length

/-- Slice.get_left_at_first(element): find, bump the offset by one when found
and inclusive, return the prefix of that length. -/
def get_left_at_first_elem (l : List α) (c : α) (inclusive : Bool) : List α :=
  let offset := find_first_elem c l
  let offset := if offset ≠ l.length then (if inclusive then offset + 1 else offset) else offset
  l.take offset

/-- Slice.get_left_at_last(element). -/
def get_left_at_last_elem (l : List α) (c : α) (inclusive : Bool) : List α :=
  let offset := find_last_elem l c
  let offset := if offset ≠ l.length then (if inclusive then offset + 1 else offset) else offset
  l.take offset

/-- Slice.get_right_at_first(element): find, bump the offset by one when found
and not inclusive, return the suffix from that offset. -/
def get_right_at_first_elem (l : List α) (c : α) (inclusive : Bool) : List α :=
  let offset := find_first_elem c l
  let offset := if offset ≠ l.length then (if inclusive then offset else offset + 1) else offset
  l.drop offset

/-- Slice.get_right_at_last(element). -/
def get_right_at_last_elem (l : List α) (c : α) (inclusive : Bool) : List α :=
  let offset := find_last_elem l c
  let offset := if offset ≠ l.length then (if inclusive then offset else offset + 1) else offset
  l.drop offset

/-- Slice.get_left_at_first(subsequence): when found and inclusive the offset
advances past the matched needle. -/
def get_left_at_first_sub (l s : List α) (inclusive : Bool) : List α :=
  let offset := find_first_sub l s
  let offset := if offset ≠ l.length then (if inclusive then offset + s.length else offset) else offset
  l.take offset

/-- Slice.get_left_at_last(subsequence). -/
def get_left_at_last_sub (l s : List α) (inclusive : Bool) : List α :=
  let offset := find_last_sub l s
  let offset := if offset ≠ l.length then (if inclusive then offset + s.length else offset) else offset
  l.take offset

/-- Slice.get_right_at_first(subsequence). -/
def get_right_at_first_sub (l s : List α) (inclusive : Bool) : List α :=
  let offset := find_first_sub l s
  let offset := if offset ≠ l.length then (if inclusive then offset else offset + s.length) else offset
  l.drop offset

/-- Slice.get_right_at_last(subsequence). -/
def get_right_at_last_sub (l s : List α) (inclusive : Bool) : List α :=
  let offset := find_last_sub l s
  let offset := if offset ≠ l.length then (if inclusive then offset else offset + s.length) else offset
  l.drop offset

/-! Characterisations of the four find loops. -/

theorem find_first_elem_of_not_mem {c : α} {l : List α} (h : c ∉ l) :
    find_first_elem c l = l.length := by
  induction l with
  | nil => rfl
  | cons x xs ih =>
    rw [List.mem_cons, not_or] at h
    simp only [find_first_elem, List.length_cons]
    rw [if_neg (fun hx => h.1 hx.symm), ih h.2]

theorem find_first_elem_eq {c : α} {l : List α} {k : Nat} (hc : l.get? k = some c)
    (hmin : ∀ j, j < k → l.get? j ≠ some c) : find_first_elem c l = k := by
  induction l generalizing k with
  | nil => simp at hc
  | cons x xs ih =>
    cases k with
    | zero =>
      rw [List.get?_cons_zero, Option.some_inj] at hc
      simp [find_first_elem, hc]
    | succ k =>
      have hx : ¬ x = c := by
        have h0 := hmin 0 (Nat.succ_pos k)
        rw [List.get?_cons_zero] at h0
        exact fun hxc => h0 (by rw [hxc])
      rw [List.get?_cons_succ] at hc
      have hmin' : ∀ j, j < k → xs.get? j ≠ some c := fun j hj hcc =>
        hmin (j + 1) (Nat.succ_lt_succ hj) (by rw [List.get?_cons_succ]; exact hcc)
      simp only [find_first_elem, if_neg hx, ih hc hmin']

theorem find_last_elem_aux_of_none {l : List α} {c : α} {n : Nat} (hn : n ≤ l.length)
    (h : ∀ i, i < n → l.get? i ≠ some c) : find_last_elem_aux l c n = l.length := by
  induction n with
  | zero => rfl
  | succ n ih =>
    have hlt : n < l.length := hn
    have hD : l.getD n default = l.get ⟨n, hlt⟩ := by
      rw [List.getD_eq_getElem?_getD, ← List.get?_eq_getElem?, List.get?_eq_get hlt]; rfl
    have hne : ¬ l.getD n default = c := fun hcc =>
      h n (Nat.lt_succ_self n) (by rw [List.get?_eq_get hlt, ← hD, hcc])
    simp only [find_last_elem_aux, if_neg hne]
    exact ih (Nat.le_of_lt hlt) (fun i hi => h i (hi.trans (Nat.lt_succ_self n)))

theorem find_last_elem_aux_eq {l : List α} {c : α} {k n : Nat} (hk : k < n) (hn : n ≤ l.length)
    (hc : l.get? k = some c) (hmax : ∀ j, k < j → j < n → l.get? j ≠ some c) :
    find_last_elem_aux l c n = k := by
  induction n with
  | zero => exact absurd hk (Nat.not_lt_zero k)
  | succ n ih =>
    have hlt : n < l.length := hn
    have hD : l.getD n default = l.get ⟨n, hlt⟩ := by
      rw [List.getD_eq_getElem?_getD, ← List.get?_eq_getElem?, List.get?_eq_get hlt]; rfl
    by_cases hkn : k = n
    · subst hkn
      rw [List.get?_eq_get hlt, Option.some_inj] at hc
      simp only [find_last_elem_aux, hD, if_pos hc]
    · have hk' : k < n := by omega
      have hne : ¬ l.getD n default = c := fun hcc =>
        hmax n hk' (Nat.lt_succ_self n) (by rw [List.get?_eq_get hlt, ← hD, hcc])
      simp only [find_last_elem_aux, if_neg hne]
      exact ih hk' (Nat.le_of_lt hlt) (fun j h1 h2 => hmax j h1 (h2.trans (Nat.lt_succ_self n)))

theorem find_last_elem_of_not_mem {l : List α} {c : α} (h : c ∉ l) :
    find_last_elem l c = l.length :=
  find_last_elem_aux_of_none le_rfl (fun i _ hc => h (List.get?_mem hc))

theorem find_last_elem_eq {l : List α} {c : α} {k : Nat} (hc : l.get? k = some c)
    (hmax : ∀ j, k < j → l.get? j ≠ some c) : find_last_elem l c = k := by
  obtain ⟨hk, -⟩ := List.get?_eq_some.mp hc
  exact find_last_elem_aux_eq hk le_rfl hc (fun j h1 _ => hmax j h1)

theorem find_first_sub_aux_of_none {l s : List α} {n i : Nat}
    (h : ∀ j, i ≤ j → j < i + n → ¬ match_at l s j) : find_first_sub_aux l s i n = l.length := by
  induction n generalizing i with
  | zero => rfl
  | succ n ih =>
    simp only [find_first_sub_aux]
    rw [if_neg (h i le_rfl (by omega))]
    exact ih (fun j hj hj2 => h j (by omega) (by omega))

theorem find_first_sub_aux_eq {l s : List α} {k n i : Nat} (hik : i ≤ k) (hkn : k < i + n)
    (hm : match_at l s k) (hmin : ∀ j, i ≤ j → j < k → ¬ match_at l s j) :
    find_first_sub_aux l s i n = k := by
  induction n generalizing i with
  | zero => omega
  | succ n ih =>
    simp only [find_first_sub_aux]
    by_cases hk : i = k
    · rw [if_pos (hk ▸ hm)]; exact hk
    · rw [if_neg (hmin i le_rfl (by omega))]
      exact ih (by omega) (by omega) (fun j hj hj2 => hmin j (by omega) hj2)

theorem find_last_sub_aux_of_none {l s : List α} {n : Nat} (h : ∀ i, i < n → ¬ match_at l s i) :
    find_last_sub_aux l s n = l.length := by
  induction n with
  | zero => rfl
  | succ n ih =>
    simp only [find_last_sub_aux]
    rw [if_neg (h n (Nat.lt_succ_self n))]
    exact ih (fun i hi => h i (hi.trans (Nat.lt_succ_self n)))

theorem find_last_sub_aux_eq {l s : List α} {k n : Nat} (hk : k < n) (hm : match_at l s k)
    (hmax : ∀ j, k < j → j < n → ¬ match_at l s j) : find_last_sub_aux l s n = k := by
  induction n with
  | zero => exact absurd hk (Nat.not_lt_zero k)
  | succ n ih =>
    simp only [find_last_sub_aux]
    by_cases hkn : k = n
    · rw [if_pos (hkn ▸ hm)]; exact hkn.symm
    · rw [if_neg (hmax n (by omega) (Nat.lt_succ_self n))]
      exact ih (by omega) (fun j h1 h2 => hmax j h1 (h2.trans (Nat.lt_succ_self n)))

theorem match_at_bound {l s : List α} {i : Nat} (hs : s ≠ []) (h : match_at l s i) :
    i + s.length ≤ l.length := by
  unfold match_at at h
  have hlen := congrArg List.length h
  simp only [List.length_take, List.length_drop] at hlen
  have h1 : s.length ≤ l.length - i := min_eq_left_iff.mp hlen
  have h2 : 0 < s.length := List.length_pos.mpr hs
  omega

theorem find_first_sub_of_none {l s : List α} (hs : s ≠ [])
    (h : ∀ i, i + s.length < l.length → ¬ match_at l s i) : find_first_sub l s = l.length := by
  unfold find_first_sub
  rw [if_neg hs]
  exact find_first_sub_aux_of_none (fun j _ hj2 => h j (by omega))

theorem find_first_sub_eq {l s : List α} {k : Nat} (hs : s ≠ []) (hb : k + s.length < l.length)
    (hm : match_at l s k) (hmin : ∀ j, j < k → ¬ match_at l s j) : find_first_sub l s = k := by
  unfold find_first_sub
  rw [if_neg hs]
  exact find_first_sub_aux_eq (Nat.zero_le k) (by omega) hm (fun j _ hj => hmin j hj)

theorem find_last_sub_of_none {l s : List α} (hs : s ≠ [])
    (h : ∀ i, i + s.length ≤ l.length → ¬ match_at l s i) : find_last_sub l s = l.length := by
  unfold find_last_sub
  rw [if_neg hs]
  by_cases hsl : s.length ≤ l.length
  · rw [if_pos hsl]
    exact find_last_sub_aux_of_none (fun i hi => h i (by omega))
  · rw [if_neg hsl]

theorem find_last_sub_eq {l s : List α} {k : Nat} (hs : s ≠ []) (hb : k + s.length ≤ l.length)
    (hm : match_at l s k) (hmax : ∀ j, k < j → ¬ match_at l s j) : find_last_sub l s = k := by
  have h2 : 0 < s.length := List.length_pos.mpr hs
  unfold find_last_sub
  rw [if_neg hs, if_pos (by omega : s.length ≤ l.length)]
  exact find_last_sub_aux_eq (by omega) hm (fun j h1 _ => hmax j h1)

/-- C7: for all first <= last <= length, slice(first, last) has length
last - first and its element at each i < last - first is the element of the
original view at first + i; the assertion of slice is violated exactly when
first > last or last > length. -/
theorem c7_slice_correct {β : Type} (l : List β) (first last : Nat)
    (h1 : first ≤ last) (h2 : last ≤ l.length) :
    (slice l first last).length = last - first ∧
    (∀ i, i < last - first → (slice l first last).get? i = l.get? (first + i)) ∧
    slice_assert_ok first last l.length ∧
    (∀ f t n : Nat, ¬ slice_assert_ok f t n ↔ (f > t ∨ t > n)) := by
  refine ⟨?_, ?_, ⟨h1, h2⟩, ?_⟩
  · simp only [slice, List.length_take, List.length_drop]
    exact min_eq_left (by omega)
  · intro i hi
    simp [slice, List.get?_eq_getElem?, List.getElem?_take, List.getElem?_drop, hi]
  · intro f t n
    unfold slice_assert_ok
    omega

/-- Witness for C7 at the view with elements 10, 20, 30 and first = 1,
last = 3. -/
theorem c7_slice_correct_witness :
    ((1 : Nat) ≤ 3 ∧ 3 ≤ ([10, 20, 30] : List Nat).length) ∧
    ((slice ([10, 20, 30] : List Nat) 1 3).length = 3 - 1 ∧
     (∀ i, i < 3 - 1 →
       (slice ([10, 20, 30] : List Nat) 1 3).get? i = ([10, 20, 30] : List Nat).get? (1 + i)) ∧
     slice_assert_ok 1 3 ([10, 20, 30] : List Nat).length ∧
     (∀ f t n : Nat, ¬ slice_assert_ok f t n ↔ (f > t ∨ t > n))) :=
  ⟨⟨by decide, by decide⟩, c7_slice_correct [10, 20, 30] 1 3 (by decide) (by decide)⟩

/-- C4: evaluation of Array.pop_back(n) at length 3, n = 1. The precondition
length >= n holds (3 >= 1) and the removal itself is correct (the first
length - n elements remain), but the assertion the source actually wrote,
SLICE_ASSERT(n >= this->length), evaluates to 1 >= 3 and fails; conversely
it accepts the invalid call with length 1, n = 3. -/
theorem c4_pop_back_assert_reversed :
    (3 : Nat) ≥ 1 ∧
    ¬ pop_back_n_assert_ok 3 1 ∧
    pop_back_n ([10, 20, 30] : List Nat) 1 = [10, 20] ∧
    pop_back_n_assert_ok 1 3 := by
  decide

/-- C3: evaluation of the subsequence find functions on the view with
elements 0, 1 and needle 1 (a single-element subsequence). The needle occurs
at index 1, the last valid alignment: find_last returns 1 and the element
overload of find_first returns 1, but the subsequence find_first scans only
indices strictly below length - needle.length and returns length = 2, the
not-found sentinel. -/
theorem c3_find_first_tail_miss :
    match_at ([0, 1] : List Nat) [1] 1 ∧
    find_last_sub ([0, 1] : List Nat) [1] = 1 ∧
    find_first_elem 1 ([0, 1] : List Nat) = 1 ∧
    find_first_sub ([0, 1] : List Nat) [1] = 2 := by
  decide

/-- C1 counterexample: the element 1 does not occur in the view with single
element 0, yet the left views equal the full original view (not an empty
view) and the right views are empty (not the full view) — the opposite of
the policy the claim states. -/
theorem c1_not_found_policy_counterexam :
    (1 : Nat) ∉ ([0] : List Nat) ∧
    get_left_at_first_elem ([0] : List Nat) 1 false = [0] ∧
    get_left_at_last_elem ([0] : List Nat) 1 false = [0] ∧
    get_right_at_first_elem ([0] : List Nat) 1 true = [] ∧
    get_right_at_last_elem ([0] : List Nat) 1 true = [] ∧
    ([0] : List Nat) ≠ [] := by
  decide

/-- C1 amended: when the needle is not found the left views are the FULL
original view and the right views are EMPTY; when it is found, the left view
is the portion strictly before the located needle (or including it when
inclusive) and the right view is the portion from the needle onward (or
strictly after it when not inclusive). Element needles locate the true
first/last occurrence; the subsequence first-variants only locate
occurrences starting strictly before length - needle.length (an occurrence
at the final alignment is treated as not found), while the last-variants
consider every alignment. -/
theorem c1_get_views_amended (l s : List Nat) (c : Nat) (b : Bool) :
    (c ∉ l →
      get_left_at_first_elem l c b = l ∧ get_left_at_last_elem l c b = l ∧
      get_right_at_first_elem l c b = [] ∧ get_right_at_last_elem l c b = []) ∧
    (∀ k, l.get? k = some c → (∀ j, j < k → l.get? j ≠ some c) →
      get_left_at_first_elem l c false = l.take k ∧
      get_left_at_first_elem l c true = l.take (k + 1) ∧
      get_right_at_first_elem l c true = l.drop k ∧
      get_right_at_first_elem l c false = l.drop (k + 1)) ∧
    (∀ k, l.get? k = some c → (∀ j, k < j → l.get? j ≠ some c) →
      get_left_at_last_elem l c false = l.take k ∧
      get_left_at_last_elem l c true = l.take (k + 1) ∧
      get_right_at_last_elem l c true = l.drop k ∧
      get_right_at_last_elem l c false = l.drop (k + 1)) ∧
    (s ≠ [] → (∀ i, i + s.length < l.length → ¬ match_at l s i) →
      get_left_at_first_sub l s b = l ∧ get_right_at_first_sub l s b = []) ∧
    (s ≠ [] → (∀ i, i + s.length ≤ l.length → ¬ match_at l s i) →
      get_left_at_last_sub l s b = l ∧ get_right_at_last_sub l s b = []) ∧
    (∀ k, s ≠ [] → k + s.length < l.length → match_at l s k →
      (∀ j, j < k → ¬ match_at l s j) →
      get_left_at_first_sub l s false = l.take k ∧
      get_left_at_first_sub l s true = l.take (k + s.length) ∧
      get_right_at_first_sub l s true = l.drop k ∧
      get_right_at_first_sub l s false = l.drop (k + s.length)) ∧
    (∀ k, s ≠ [] → k + s.length ≤ l.length → match_at l s k →
      (∀ j, k < j → ¬ match_at l s j) →
      get_left_at_last_sub l s false = l.take k ∧
      get_left_at_last_sub l s true = l.take (k + s.length) ∧
      get_right_at_last_sub l s true = l.drop k ∧
      get_right_at_last_sub l s false = l.drop (k + s.length)) := by
  refine ⟨?_, ?_, ?_, ?_, ?_, ?_, ?_⟩
  · intro h
    have h1 := find_first_elem_of_not_mem h
    have h2 := find_last_elem_of_not_mem h
    refine ⟨?_, ?_, ?_, ?_⟩ <;>
      simp [get_left_at_first_elem, get_left_at_last_elem, get_right_at_first_elem,
        get_right_at_last_elem, h1, h2]
  · intro k hc hmin
    obtain ⟨hklt, -⟩ := List.get?_eq_some.mp hc
    have hf := find_first_elem_eq hc hmin
    have hne : k ≠ l.length := Nat.ne_of_lt hklt
    refine ⟨?_, ?_, ?_, ?_⟩ <;>
      simp [get_left_at_first_elem, get_right_at_first_elem, hf, hne]
  · intro k hc hmax
    obtain ⟨hklt, -⟩ := List.get?_eq_some.mp hc
    have hf := find_last_elem_eq hc hmax
    have hne : k ≠ l.length := Nat.ne_of_lt hklt
    refine ⟨?_, ?_, ?_, ?_⟩ <;>
      simp [get_left_at_last_elem, get_right_at_last_elem, hf, hne]
  · intro hs h
    have hf := find_first_sub_of_none hs h
    refine ⟨?_, ?_⟩ <;> simp [get_left_at_first_sub, get_right_at_first_sub, hf]
  · intro hs h
    have hf := find_last_sub_of_none hs h
    refine ⟨?_, ?_⟩ <;> simp [get_left_at_last_sub, get_right_at_last_sub, hf]
  · intro k hs hb hm hmin
    have hf := find_first_sub_eq hs hb hm hmin
    have hne : k ≠ l.length := by omega
    refine ⟨?_, ?_, ?_, ?_⟩ <;>
      simp [get_left_at_first_sub, get_right_at_first_sub, hf, hne]
  · intro k hs hb hm hmax
    have hsl : 0 < s.length := List.length_pos.mpr hs
    have hf := find_last_sub_eq hs hb hm hmax
    have hne : k ≠ l.length := by omega
    refine ⟨?_, ?_, ?_, ?_⟩ <;>
      simp [get_left_at_last_sub, get_right_at_last_sub, hf, hne]

/-- Witness for C1: instances of every branch of the amended statement at
small concrete views. -/
theorem c1_get_views_amended_witness :
    (get_left_at_first_elem ([5] : List Nat) 9 false = [5] ∧
     get_right_at_first_elem ([5] : List Nat) 9 true = []) ∧
    (get_left_at_first_elem ([7, 8, 9] : List Nat) 8 false = [7] ∧
     get_right_at_first_elem ([7, 8, 9] : List Nat) 8 false = [9]) ∧
    (get_left_at_last_elem ([7, 8, 7] : List Nat) 7 false = [7, 8] ∧
     get_right_at_last_elem ([7, 8, 7] : List Nat) 7 true = [7]) ∧
    (get_left_at_first_sub ([1, 2, 3] : List Nat) [9] false = [1, 2, 3] ∧
     get_right_at_first_sub ([1, 2, 3] : List Nat) [9] true = []) ∧
    (get_left_at_last_sub ([1, 2] : List Nat) [9] false = [1, 2] ∧
     get_right_at_last_sub ([1, 2] : List Nat) [9] true = []) ∧
    (get_left_at_first_sub ([1, 2, 3] : List Nat) [2] true = [1, 2] ∧
     get_right_at_first_sub ([1, 2, 3] : List Nat) [2] false = [3]) ∧
    (get_left_at_last_sub ([1, 2] : List Nat) [2] false = [1] ∧
     get_right_at_last_sub ([1, 2] : List Nat) [2] true = [2]) := by
  refine ⟨?_, ?_, ?_, ?_, ?_, ?_, ?_⟩
  · have h1 := (c1_get_views_amended [5] [] 9 false).1 (by decide)
    have h2 := (c1_get_views_amended [5] [] 9 true).1 (by decide)
    exact ⟨h1.1, h2.2.2.1⟩
  · have h := (c1_get_views_amended [7, 8, 9] [] 8 false).2.1 1 (by decide) (by decide)
    exact ⟨h.1, h.2.2.2⟩
  · have h := (c1_get_views_amended [7, 8, 7] [] 7 false).2.2.1 2 (by decide)
      (fun j hj hc => by
        obtain ⟨hjl, -⟩ := List.get?_eq_some.mp hc
        simp only [List.length_cons, List.length_nil] at hjl
        omega)
    exact ⟨h.1, h.2.2.1⟩
  · have h1 := (c1_get_views_amended [1, 2, 3] [9] 0 false).2.2.2.1 (by decide)
      (fun i hi => by
        simp only [List.length_cons, List.length_nil] at hi
        have h2 : i < 2 := by omega
        interval_cases i <;> decide)
    have h2 := (c1_get_views_amended [1, 2, 3] [9] 0 true).2.2.2.1 (by decide)
      (fun i hi => by
        simp only [List.length_cons, List.length_nil] at hi
        have h2 : i < 2 := by omega
        interval_cases i <;> decide)
    exact ⟨h1.1, h2.2⟩
  · have h1 := (c1_get_views_amended [1, 2] [9] 0 false).2.2.2.2.1 (by decide)
      (fun i hi => by
        simp only [List.length_cons, List.length_nil] at hi
        have h2 : i < 2 := by omega
        interval_cases i <;> decide)
    have h2 := (c1_get_views_amended [1, 2] [9] 0 true).2.2.2.2.1 (by decide)
      (fun i hi => by
        simp only [List.length_cons, List.length_nil] at hi
        have h2 : i < 2 := by omega
        interval_cases i <;> decide)
    exact ⟨h1.1, h2.2⟩
  · have h := (c1_get_views_amended [1, 2, 3] [2] 0 false).2.2.2.2.2.1 1 (by decide)
      (by decide) (by decide) (fun j hj => by interval_cases j; decide)
    exact ⟨h.2.1, h.2.2.2⟩
  · have h := (c1_get_views_amended [1, 2] [2] 0 false).2.2.2.2.2.2 1 (by decide)
      (by decide) (by decide)
      (fun j hj hm => by
        have hb := match_at_bound (by decide) hm
        simp only [List.length_cons, List.length_nil] at hb
        omega)
    exact ⟨h.1, h.2.2.1⟩

/-! The transcoding engine of slice.h, namespace detail. Code units are Nat
values (an unsigned byte for UTF-8, a 16-bit unit for UTF-16, a 32-bit unit
for UTF-32); a buffer of code units is a list read from index 0, so the
decode functions inspect the head elements of the list. -/

/-- detail.utf_seq_length specialised to char: the number of UTF-8 code
units needed for the code point c. -/
def utf8_seq_length (c : Nat) : Nat :=
  if c < 0x80 then 1 else if c < 0x800 then 2 else if c < 0x10000 then 3 else 4

/-- detail.utf_seq_length specialised to char16_t. -/
def utf16_seq_length (c : Nat) : Nat :=
  if c < 0x10000 then 1 else 2

/-- detail.utf_encode(char32_t, char*): writes 1 to 4 bytes chosen by the
range of c; the source fills the trailing bytes first while shifting c right
by 6 each time, which yields the bytes listed here in buffer order. -/
def utf8_encode (c : Nat) : List Nat :=
  if c < 0x80 then [c]
  else if c < 0x800 then
    [((c >>> 6) &&& 0x1f) ||| 0xc0,
     (c &&& 0x3f) ||| 0x80]
  else if c < 0x10000 then
    [((c >>> 12) &&& 0x0f) ||| 0xe0,
     ((c >>> 6) &&& 0x3f) ||| 0x80,
     (c &&& 0x3f) ||| 0x80]
  else
    [((c >>> 18) &&& 0x07) ||| 0xf0,
     ((c >>> 12) &&& 0x3f) ||| 0x80,
     ((c >>> 6) &&& 0x3f) ||| 0x80,
     (c &&& 0x3f) ||| 0x80]

/-- detail.utf_decode(const char*, char32_t*): pattern-matches the leading
byte and returns the decoded code point together with the number of code
units consumed. -/
def utf8_decode (l : List Nat) : Nat × Nat :=
  let b0 := l.getD 0 0
  if b0 < 128 then (b0, 1)
  else if b0 &&& 0xE0 = 0xC0 then
    (((b0 &&& 0x1F) <<< 6) ||| (l.getD 1 0 &&& 0x3F), 2)
  else if b0 &&& 0xF0 = 0xE0 then
    (((b0 &&& 0x0F) <<< 12) ||| ((l.getD 1 0 &&& 0x3F) <<< 6) ||| (l.getD 2 0 &&& 0x3F), 3)
  else
    (((b0 &&& 0x07) <<< 18) ||| ((l.getD 1 0 &&& 0x3F) <<< 12) |||
      ((l.getD 2 0 &&& 0x3F) <<< 6) ||| (l.getD 3 0 &&& 0x3F), 4)

/-- detail.utf_encode(char32_t, char16_t*): one unit below 0x10000, else a
surrogate pair built from c - 0x10000; the cast to char16_t keeps the low
16 bits of each unit. -/
def utf16_encode (c : Nat) : List Nat :=
  if c < 0x10000 then [c]
  else
    [(0xD800 ||| ((c - 0x10000) >>> 10)) % 0x10000,
     (0xDC00 ||| ((c - 0x10000) &&& 0x3FF)) % 0x10000]

/-- detail.utf_decode(const char16_t*, char32_t*): a leading high surrogate
combines with the following unit into one code point consuming 2 units,
otherwise the unit itself is the code point. Note the source combines the
two 10-bit halves without adding the 0x10000 bias back. -/
def utf16_decode (l : List Nat) : Nat × Nat :=
  let u0 := l.getD 0 0
  if 0xD800 ≤ u0 ∧ u0 &&& 0xFC00 = 0xD800 then
    (((u0 &&& 0x3FF) <<< 10) ||| (l.getD 1 0 &&& 0x3FF), 2)
  else (u0, 1)

/-- detail.utf_encode(char32_t, char32_t*): identity encode. -/
def utf32_encode (c : Nat) : List Nat := [c]

/-- detail.utf_decode(const char32_t*, char32_t*): identity decode. -/
def utf32_decode (l : List Nat) : Nat × Nat := (l.getD 0 0, 1)

/-- detail.num_code_units with destination width char and source width
char32_t (array.h): decodes each source unit (an identity decode consuming
one unit for char32_t) and sums the UTF-8 encoded length of each decoded
code point. -/
def num_code_units8 (src : List Nat) : Nat :=
  (src.map utf8_seq_length).sum

/-- detail.transcode_string with destination width char and source width
char32_t (array.h): decodes each source unit and writes its UTF-8
encoding. -/
def transcode8 (src : List Nat) : List Nat :=
  src.flatMap utf8_encode

/-- State of the string specialisation of Array, restricted to what the
constructor and append write: buf is the meaningfully written prefix of the
allocation (contents followed by the null terminator), none when no
allocation was made, and len is the length field. reserve relocates the
first len units unchanged, so units beyond the written prefix are never
observable through the class and are not modelled. -/
structure TextArray where
  buf : Option (List Nat)
  len : Nat
  deriving DecidableEq

/-- Array(U*, size_t) of the string specialisation in array.h, with a
char32_t source and char destination: returns immediately on an empty
source (leaving the default null state), otherwise counts the destination
code units, reserves that count plus one, transcodes, and stores 0 at index
length. -/
def text_array_from_slice (src : List Nat) : TextArray :=
  if src = [] then ⟨none, 0⟩
  else ⟨some (transcode8 src ++ [0]), num_code_units8 src⟩

/-- Array.append of the string specialisation in array.h, for one view item
of char32_t units: computes the new length, reserves it plus one, writes the
transcoded item after the existing contents, stores 0 at the new length and
updates the length field. -/
def text_array_append (a : TextArray) (src : List Nat) : TextArray :=
  ⟨some ((a.buf.getD []).take a.len ++ transcode8 src ++ [0]),
   a.len + num_code_units8 src⟩

/-- The null-termination invariant of the string specialisation: the buffer
exists, holds len + 1 written units, and the unit at index len is 0. -/
def text_wf (a : TextArray) : Prop :=
  ∃ b, a.buf = some b ∧ b.length = a.len + 1 ∧ b.get? a.len = some 0

theorem utf8_encode_length (c : Nat) : (utf8_encode c).length = utf8_seq_length c := by
  unfold utf8_encode utf8_seq_length
  split_ifs <;> rfl

theorem transcode8_length (src : List Nat) : (transcode8 src).length = num_code_units8 src := by
  induction src with
  | nil => rfl
  | cons c r ih =>
    simp [transcode8, num_code_units8, utf8_encode_length] at ih ⊢
    omega

/-- C6: evaluation of the UTF-16 round trip at the code point 0x10000 (a
valid non-surrogate code point). Encoding yields the surrogate pair 0xD800,
0xDC00, but decoding that pair returns code point 0 with 2 units consumed,
because the decoder never adds the 0x10000 bias back; the UTF-8 and UTF-32
round trips do reproduce 0x10000. -/
theorem c6_utf16_round_trip_fails :
    utf16_encode 0x10000 = [0xD800, 0xDC00] ∧
    utf16_decode (utf16_encode 0x10000) = (0, 2) ∧
    (0 : Nat) ≠ 0x10000 ∧
    utf8_decode (utf8_encode 0x10000) = (0x10000, 4) ∧
    utf32_decode (utf32_encode 0x10000) = (0x10000, 1) := by
  decide

/-- C9 counterexample: constructing from an empty source view returns before
reserving anything or writing a terminator, so the array is left in the
null state; there is no element 0 at index length, contradicting the claim
for that source. -/
theorem c9_empty_source_counterexample :
    text_array_from_slice [] = ⟨none, 0⟩ ∧ ¬ text_wf (text_array_from_slice []) := by
  refine ⟨rfl, ?_⟩
  rintro ⟨b, hb, -⟩
  simp [text_array_from_slice] at hb

/-- C9 amended: for every NON-empty source the constructor writes
decodedLength code units plus a null terminator, so the element at index
length is 0 and the length field equals the decoded length; construction
from an empty source leaves the array null. append always rewrites the
terminator and extends the length, preserving the existing contents, so the
null-termination invariant is maintained from the null state or any
well-formed state. -/
theorem c9_terminator_amended (src : List Nat) (a : TextArray) :
    (src ≠ [] →
      (text_array_from_slice src).len = num_code_units8 src ∧
      (text_array_from_slice src).buf = some (transcode8 src ++ [0]) ∧
      text_wf (text_array_from_slice src)) ∧
    ((a.buf = none ∧ a.len = 0) ∨ text_wf a →
      text_wf (text_array_append a src) ∧
      (text_array_append a src).len = a.len + num_code_units8 src ∧
      (∀ i, i < a.len →
        ((text_array_append a src).buf.getD []).get? i = (a.buf.getD []).get? i)) := by
  constructor
  · intro h
    rw [text_array_from_slice, if_neg h]
    refine ⟨rfl, rfl, transcode8 src ++ [0], rfl, ?_, ?_⟩
    · simp [List.length_append, transcode8_length]
    · rw [List.get?_append_right (by simp [transcode8_length])]
      simp [transcode8_length]
  · intro hw
    have hcont : ((a.buf.getD []).take a.len).length = a.len := by
      rcases hw with ⟨hb, hl⟩ | ⟨b, hb, hl, -⟩
      · simp [hb, hl]
      · simp [hb, List.length_take, hl]
    refine ⟨⟨(a.buf.getD []).take a.len ++ transcode8 src ++ [0], rfl, ?_, ?_⟩, rfl, ?_⟩
    · simp only [text_array_append, List.length_append, List.length_cons, List.length_nil,
        transcode8_length, hcont]
    · show ((a.buf.getD []).take a.len ++ transcode8 src ++ [0]).get? (a.len + num_code_units8 src) = some 0
      rw [List.append_assoc,
        List.get?_append_right (by rw [hcont]; exact Nat.le_add_right _ _), hcont]
      have hsub : a.len + num_code_units8 src - a.len = num_code_units8 src := by omega
      rw [hsub, List.get?_append_right (by simp [transcode8_length])]
      simp [transcode8_length]
    · intro i hi
      show ((a.buf.getD []).take a.len ++ transcode8 src ++ [0]).get? i = (a.buf.getD []).get? i
      rw [List.append_assoc, List.get?_append (by rw [hcont]; exact hi)]
      simp [List.get?_eq_getElem?, List.getElem?_take, hi]

/-- Witness for C9: the constructor from the one-element char32_t source
holding 0x65E5 produces the three UTF-8 bytes of that code point plus the
terminator, and appending the source holding 0x41 preserves the contents
and re-terminates. -/
theorem c9_terminator_amended_witness :
    (([0x65E5] : List Nat) ≠ [] ∧
     (text_array_from_slice [0x65E5]).len = num_code_units8 [0x65E5] ∧
     (text_array_from_slice [0x65E5]).buf = some (transcode8 [0x65E5] ++ [0]) ∧
     text_wf (text_array_from_slice [0x65E5])) ∧
    (text_wf (text_array_append ⟨some [0xE6, 0x97, 0xA5, 0], 3⟩ [0x41]) ∧
     (text_array_append ⟨some [0xE6, 0x97, 0xA5, 0], 3⟩ [0x41]).len =
       3 + num_code_units8 [0x41] ∧
     (∀ i, i < 3 →
       ((text_array_append ⟨some [0xE6, 0x97, 0xA5, 0], 3⟩ [0x41]).buf.getD []).get? i =
         (((⟨some [0xE6, 0x97, 0xA5, 0], 3⟩ : TextArray)).buf.getD []).get? i)) := by
  constructor
  · refine ⟨by decide, ?_⟩
    exact (c9_terminator_amended [0x65E5] ⟨none, 0⟩).1 (by decide)
  · exact (c9_terminator_amended [0x41] ⟨some [0xE6, 0x97, 0xA5, 0], 3⟩).2
      (Or.inr ⟨[0xE6, 0x97, 0xA5, 0], rfl, by decide, by decide⟩)

/-! Slice(C, true).parse_int of slice.h. Code units are Nat values; strings
are lists of code units, written with ASCII code points. The int64_t
accumulator is modelled by Int (no example here approaches overflow). -/

/-- detail.to_lower on a code unit. -/
def to_lower_cu (c : Nat) : Nat :=
  if 0x41 ≤ c ∧ c ≤ 0x5A then c ||| 0x20 else c

/-- detail.is_number on a code unit. -/
def is_number_cu (c : Nat) : Bool :=
  decide (0x30 ≤ c ∧ c ≤ 0x39)

/-- detail.is_hex on a code unit. -/
def is_hex_cu (c : Nat) : Bool :=
  decide ((0x30 ≤ c ∧ c ≤ 0x39) ∨ (0x61 ≤ c ∧ c ≤ 0x66) ∨ (0x41 ≤ c ∧ c ≤ 0x46))

/-- The digit loop of the base 2 to 9 cases: accepts code units from 0x30 up
to 0x30 + base - 1 and accumulates number * base + digit. -/
def parse_digits_base (base : Nat) (acc : Int) : List Nat → Int
  | [] => acc
  | c :: r =>
    if 0x30 ≤ c ∧ c ≤ 0x30 + (base - 1) then
      parse_digits_base base (acc * base + (c - 0x30 : Nat)) r
    else acc

/-- The digit loop of the base 10 case. -/
def parse_digits_dec (acc : Int) : List Nat → Int
  | [] => acc
  | c :: r =>
    if 0x30 ≤ c ∧ c ≤ 0x39 then parse_digits_dec (acc * 10 + (c - 0x30 : Nat)) r
    else acc

/-- The digit value of the base 16 case: the source computes
10 + (c | 0x20) - 0x61 for letters, lowering them first. -/
def hex_digit_value (c : Nat) : Nat :=
  if is_number_cu c then c - 0x30 else 10 + (c ||| 0x20) - 0x61

/-- The digit loop of the base 16 case. The source accumulates
(number << 4) | digit, which equals 16 * number + digit because the digit
is below 16 and the accumulator stays non-negative. -/
def parse_digits_hex (acc : Int) : List Nat → Int
  | [] => acc
  | c :: r =>
    if is_hex_cu c then parse_digits_hex (acc * 16 + hex_digit_value c) r
    else acc

/-- Slice(C, true).parse_int(detectBase, base): empty input returns 0; with
detectBase a leading 0x24 selects base 16 consuming one unit, a leading 0x30
whose lower-cased successor is 0x78 selects base 16 consuming two units, and
a leading unit lower-casing to 0x62 selects base 2 consuming one unit. The
source reads the unit after a leading 0x30 unchecked; the string types of
this library are null-terminated, so the model reads 0 past the end. The
switch handles the explicit cases 2 to 9 (digit accumulation without sign
handling), 10 (one optional leading 0x2B or 0x2D sign), and 16; any other
base asserts false and returns 0. -/
def parse_int (l : List Nat) (detectBase : Bool) (base : Nat) : Int :=
  if l.length = 0 then 0
  else
    let p : List Nat × Nat :=
      if detectBase then
        if l.getD 0 0 = 0x24 then (l.drop 1, 16)
        else if l.getD 0 0 = 0x30 ∧ to_lower_cu (l.getD 1 0) = 0x78 then (l.drop 2, 16)
        else if to_lower_cu (l.getD 0 0) = 0x62 then (l.drop 1, 2)
        else (l, base)
      else (l, base)
    if 2 ≤ p.2 ∧ p.2 ≤ 9 then parse_digits_base p.2 0 p.1
    else if p.2 = 10 then
      let neg := p.1.getD 0 0 = 0x2D
      let rest := if p.1.getD 0 0 = 0x2D ∨ p.1.getD 0 0 = 0x2B then p.1.drop 1 else p.1
      let number := parse_digits_dec 0 rest
      if neg then -number else number
    else if p.2 = 16 then parse_digits_hex 0 p.1
    else 0

/-- C8: the base-detection prefixes and digit conventions of parse_int.
After a leading 0x24, or 0x30 0x78, or 0x30 0x58, parsing continues in base
16 on the remainder; after a leading 0x62 or 0x42 it continues in base 2;
the requested base is used otherwise. The string 10 parses to 10 in base
10, 0x10 and dollar 10 parse to 16 under detection, b10 parses to 2 under
detection, 777 parses to 511 in base 8; base 10 accepts one leading sign
while bases 2 to 9 have no sign handling; base 16 accepts hex digits in
either case. -/
theorem c8_parse_int_conventions :
    (∀ l b, parse_int (0x24 :: l) true b = parse_int l false 16) ∧
    (∀ l b, parse_int (0x30 :: 0x78 :: l) true b = parse_int l false 16) ∧
    (∀ l b, parse_int (0x30 :: 0x58 :: l) true b = parse_int l false 16) ∧
    (∀ l b, parse_int (0x62 :: l) true b = parse_int l false 2) ∧
    (∀ l b, parse_int (0x42 :: l) true b = parse_int l false 2) ∧
    parse_int [0x31, 0x30] false 10 = 10 ∧
    parse_int [0x30, 0x78, 0x31, 0x30] true 10 = 16 ∧
    parse_int [0x24, 0x31, 0x30] true 10 = 16 ∧
    parse_int [0x62, 0x31, 0x30] true 10 = 2 ∧
    parse_int [0x37, 0x37, 0x37] false 8 = 511 ∧
    parse_int [0x2D, 0x31, 0x32] false 10 = -12 ∧
    parse_int [0x2B, 0x31, 0x32] false 10 = 12 ∧
    parse_int [0x2D, 0x37, 0x37] false 8 = 0 ∧
    parse_int [0x34] false 5 = 4 ∧
    parse_int [0x35] false 5 = 0 ∧
    parse_int [0x61, 0x42] false 16 = 171 ∧
    parse_int [0x41, 0x62] false 16 = 171 := by
  refine ⟨?_, ?_, ?_, ?_, ?_, ?_, ?_, ?_, ?_, ?_, ?_, ?_, ?_, ?_, ?_, ?_, ?_⟩
  · intro l b
    cases l with
    | nil => rfl
    | cons c r => rfl
  · intro l b
    cases l with
    | nil => rfl
    | cons c r => rfl
  · intro l b
    cases l with
    | nil => rfl
    | cons c r =>
      have h : to_lower_cu 0x58 = 0x78 := by decide
      simp [parse_int, to_lower_cu, h]
  · intro l b
    cases l with
    | nil => rfl
    | cons c r => rfl
  · intro l b
    cases l with
    | nil => rfl
    | cons c r =>
      have h : to_lower_cu 0x42 = 0x62 := by decide
      simp [parse_int, to_lower_cu, h]
  all_goals decide

/-! SharedArray of sharedarray.h. A heap maps an allocation identifier (an
abstract address) to the rc field of the ArrayHeader in front of the
allocation, or none when that address holds no live allocation. A live
SharedArray instance is none (null pointer, as after default construction)
or some (allocation, length); a world is a heap together with the list of
live instances, where a destroyed or moved-from slot holds none. -/

structure SAWorld where
  heap : Nat → Option Nat
  insts : List (Option (Nat × Nat))

/-- The ptr field of an instance, the basis of SharedArray.operator==. -/
def ptr_of (r : Option (Nat × Nat)) : Option Nat :=
  r.map Prod.fst

/-- SharedArray.use_count: the rc field of the header of the referenced
allocation, or 0 for a null instance. -/
def use_count (h : Nat → Option Nat) (r : Option (Nat × Nat)) : Nat :=
  match r with
  | some (a, _) => (h a).getD 0
  | none => 0

/-- The number of live instances referencing allocation a. -/
def count_refs (insts : List (Option (Nat × Nat))) (a : Nat) : Nat :=
  insts.countP (fun o => decide (ptr_of o = some a))

/-- Increment the rc of allocation a, as in ++get_array_header(ptr)->rc. -/
def bump (h : Nat → Option Nat) (a : Nat) : Nat → Option Nat :=
  fun x => if x = a then (h x).map (· + 1) else h x

/-- Decrement the rc of allocation a, as in --header->rc. -/
def dec1 (h : Nat → Option Nat) (a : Nat) : Nat → Option Nat :=
  fun x => if x = a then (h x).map (· - 1) else h x

/-- Release allocation a, as in detail.free_array. -/
def free_alloc (h : Nat → Option Nat) (a : Nat) : Nat → Option Nat :=
  fun x => if x = a then none else h x

/-- SharedArray copy constructor (sharedarray.h): the new instance takes the
pointer and length of the source, and when the source is non-null the rc of
the referenced header is incremented. -/
def copy_from (w : SAWorld) (j : Nat) : SAWorld :=
  match w.insts.getD j none with
  | none => ⟨w.heap, w.insts ++ [none]⟩
  | some (a, len) => ⟨bump w.heap a, w.insts ++ [some (a, len)]⟩

/-- SharedArray.clear: a null instance does nothing; otherwise the rc is
decremented when above 1, else the elements are destroyed and the
allocation released; the instance always ends null with length 0. -/
def clear_inst (w : SAWorld) (j : Nat) : SAWorld :=
  match w.insts.getD j none with
  | none => w
  | some (a, _) =>
    if 1 < (w.heap a).getD 0 then ⟨dec1 w.heap a, w.insts.set j none⟩
    else ⟨free_alloc w.heap a, w.insts.set j none⟩

/-- SharedArray move constructor (both the generic one and the string
specialisation): the new instance takes the pointer and length of the
source, the source is nulled, and the heap is untouched. -/
def move_from (w : SAWorld) (j : Nat) : SAWorld :=
  ⟨w.heap, (w.insts.set j none) ++ [w.insts.getD j none]⟩

/-- A SharedArray adopting a fresh allocation (construction from an Array
whose buffer was heap-allocated): detail.alloc_array wrote rc = 1 in the
header, and one instance references it. -/
def alloc_new (w : SAWorld) (a len : Nat) : SAWorld :=
  ⟨fun x => if x = a then some 1 else w.heap x, w.insts ++ [some (a, len)]⟩

/-- SharedArray copy assignment: a null source clears the destination; a
source with a pointer different from the destination clears the destination
then adopts the pointer and length and increments the rc; equal pointers do
nothing. -/
def copy_assign (w : SAWorld) (dst src : Nat) : SAWorld :=
  match w.insts.getD src none with
  | none => clear_inst w dst
  | some (a, len) =>
    if ptr_of (w.insts.getD dst none) = some a then w
    else
      let w2 := clear_inst w dst
      ⟨bump w2.heap a, w2.insts.set dst (some (a, len))⟩

/-- The Array value returned by SharedArray.claim. -/
structure ArrRes where
  ptr : Option Nat
  length : Nat
  deriving DecidableEq

/-- SharedArray.claim: throws when use_count() > 1; otherwise returns a
default Array, into which the pointer and length are moved only when
length > 0 (the instance is left untouched otherwise). -/
def claim_op (h : Nat → Option Nat) (r : Option (Nat × Nat)) :
    Except Unit (ArrRes × Option (Nat × Nat)) :=
  if 1 < use_count h r then Except.error ()
  else
    match r with
    | some (a, len) =>
      if 0 < len then Except.ok (⟨some a, len⟩, none) else Except.ok (⟨none, 0⟩, r)
    | none => Except.ok (⟨none, 0⟩, none)

/-- The bookkeeping invariant: the rc stored in each header equals the
number of live instances referencing the allocation (an absent allocation
counts as rc 0). -/
def sa_inv (w : SAWorld) : Prop :=
  ∀ a, count_refs w.insts a = (w.heap a).getD 0

/-- The operations a program can perform on the modelled instances. -/
inductive SAStep : SAWorld → SAWorld → Prop
  | alloc (w : SAWorld) (a len : Nat) : w.heap a = none → SAStep w (alloc_new w a len)
  | copy (w : SAWorld) (j : Nat) : SAStep w (copy_from w j)
  | assign (w : SAWorld) (dst src : Nat) : dst < w.insts.length →
      SAStep w (copy_assign w dst src)
  | clear (w : SAWorld) (j : Nat) : SAStep w (clear_inst w j)
  | move (w : SAWorld) (j : Nat) : SAStep w (move_from w j)

theorem count_refs_nil (a : Nat) : count_refs [] a = 0 := rfl

theorem count_refs_cons (o : Option (Nat × Nat)) (t : List (Option (Nat × Nat))) (a : Nat) :
    count_refs (o :: t) a = count_refs t a + (if ptr_of o = some a then 1 else 0) := by
  simp only [count_refs, List.countP_cons]
  by_cases hp : ptr_of o = some a
  · simp [hp]
  · simp [hp]

theorem count_refs_append_one (insts : List (Option (Nat × Nat))) (o : Option (Nat × Nat))
    (a : Nat) :
    count_refs (insts ++ [o]) a =
      count_refs insts a + (if ptr_of o = some a then 1 else 0) := by
  induction insts with
  | nil => simp [count_refs_cons, count_refs_nil]
  | cons x rest ih =>
    rw [List.cons_append, count_refs_cons, ih, count_refs_cons]
    omega

theorem getD_lt_length {β : Type} {insts : List (Option β)} {j : Nat} {v : β}
    (hj : insts.getD j none = some v) : j < insts.length := by
  by_contra h
  rw [List.getD_eq_getElem?_getD, List.getElem?_eq_none (by omega)] at hj
  simp at hj

theorem count_refs_pos {insts : List (Option (Nat × Nat))} {j a : Nat}
    (hj : ptr_of (insts.getD j none) = some a) : 1 ≤ count_refs insts a := by
  induction insts generalizing j with
  | nil => simp [ptr_of] at hj
  | cons o rest ih =>
    rw [count_refs_cons]
    cases j with
    | zero =>
      have ho : (o :: rest).getD 0 none = o := rfl
      rw [ho] at hj
      rw [if_pos hj]
      omega
    | succ j =>
      have ho : (o :: rest).getD (j + 1) none = rest.getD j none := rfl
      rw [ho] at hj
      have := ih hj
      omega

theorem count_refs_set_none (insts : List (Option (Nat × Nat))) (j a : Nat) :
    count_refs (insts.set j none) a =
      count_refs insts a - (if ptr_of (insts.getD j none) = some a then 1 else 0) := by
  induction insts generalizing j with
  | nil => simp [count_refs_nil, ptr_of]
  | cons o rest ih =>
    cases j with
    | zero =>
      show count_refs (none :: rest) a = _
      rw [count_refs_cons, count_refs_cons]
      have hn : ptr_of (none : Option (Nat × Nat)) = some a ↔ False := by simp [ptr_of]
      have ho : (o :: rest).getD 0 none = o := rfl
      rw [ho]
      by_cases hp : ptr_of o = some a
      · simp only [hn, if_false, if_pos hp]
        omega
      · simp only [hn, if_false, if_neg hp]
        omega
    | succ j =>
      show count_refs (o :: rest.set j none) a = _
      have ho : (o :: rest).getD (j + 1) none = rest.getD j none := rfl
      rw [ho, count_refs_cons, count_refs_cons, ih]
      by_cases hq : ptr_of (rest.getD j none) = some a
      · have hpos := count_refs_pos (j := j) (a := a) hq
        rw [if_pos hq]
        omega
      · rw [if_neg hq]
        omega

theorem count_refs_set_some {insts : List (Option (Nat × Nat))} {j : Nat} (b lenb a : Nat)
    (hj : insts.getD j none = none) (hjl : j < insts.length) :
    count_refs (insts.set j (some (b, lenb))) a =
      count_refs insts a + (if b = a then 1 else 0) := by
  induction insts generalizing j with
  | nil => simp at hjl
  | cons o rest ih =>
    cases j with
    | zero =>
      have ho : (o :: rest).getD 0 none = o := rfl
      rw [ho] at hj
      subst hj
      show count_refs (some (b, lenb) :: rest) a = _
      rw [count_refs_cons, count_refs_cons]
      have hn : ptr_of (none : Option (Nat × Nat)) = some a ↔ False := by simp [ptr_of]
      have hb : ptr_of (some (b, lenb)) = some a ↔ b = a := by simp [ptr_of]
      by_cases hba : b = a
      · rw [if_pos (hb.mpr hba), if_pos hba]
        simp only [hn, if_false]
      · rw [if_neg (fun hc => hba (hb.mp hc)), if_neg hba]
        simp only [hn, if_false]
    | succ j =>
      have ho : (o :: rest).getD (j + 1) none = rest.getD j none := rfl
      rw [ho] at hj
      have hjl' : j < rest.length := by
        simp only [List.length_cons] at hjl
        omega
      show count_refs (o :: rest.set j (some (b, lenb))) a = _
      rw [count_refs_cons, count_refs_cons, ih hj hjl']
      omega

theorem getD_set_ne {β : Type} (l : List (Option β)) {i j : Nat} (h : i ≠ j) (v : Option β) :
    (l.set i v).getD j none = l.getD j none := by
  rw [List.getD_eq_getElem?_getD, List.getD_eq_getElem?_getD, List.getElem?_set_ne h]

theorem getD_set_self {β : Type} (l : List (Option β)) {i : Nat} (h : i < l.length)
    (v : Option β) : (l.set i v).getD i none = v := by
  rw [List.getD_eq_getElem?_getD, List.getElem?_set_self h]
  rfl

theorem heap_some_of_refs {w : SAWorld} {a : Nat} (hInv : sa_inv w)
    (hpos : 1 ≤ count_refs w.insts a) :
    ∃ r, w.heap a = some r ∧ count_refs w.insts a = r := by
  rcases hh : w.heap a with _ | r
  · rw [hInv a, hh] at hpos
    simp at hpos
  · refine ⟨r, rfl, ?_⟩
    rw [hInv a, hh]
    rfl

theorem sa_inv_alloc {w : SAWorld} {a len : Nat} (hInv : sa_inv w)
    (hfresh : w.heap a = none) : sa_inv (alloc_new w a len) := by
  intro x
  show count_refs (w.insts ++ [some (a, len)]) x = ((if x = a then some 1 else w.heap x)).getD 0
  rw [count_refs_append_one]
  by_cases hx : x = a
  · subst hx
    have h0 : count_refs w.insts x = 0 := by
      rw [hInv x, hfresh]
      rfl
    rw [h0, if_pos (show ptr_of (some (x, len)) = some x from rfl), if_pos rfl]
    rfl
  · rw [if_neg (show ¬ ptr_of (some (a, len)) = some x from
      fun h => hx (Option.some_inj.mp h).symm), if_neg hx, Nat.add_zero]
    exact hInv x

theorem sa_inv_copy {w : SAWorld} {j : Nat} (hInv : sa_inv w) : sa_inv (copy_from w j) := by
  intro x
  rcases hj : w.insts.getD j none with _ | ⟨a, len⟩
  · simp only [copy_from, hj, count_refs_append_one]
    simpa [ptr_of] using hInv x
  · simp only [copy_from, hj, count_refs_append_one]
    by_cases hx : x = a
    · subst hx
      have hpos : 1 ≤ count_refs w.insts x :=
        count_refs_pos (j := j) (by rw [hj]; rfl)
      obtain ⟨r, hr, hcr⟩ := heap_some_of_refs hInv hpos
      rw [hcr, if_pos (show ptr_of (some (x, len)) = some x from rfl)]
      simp [bump, hr]
    · rw [if_neg (show ¬ ptr_of (some (a, len)) = some x from
        fun h => hx (Option.some_inj.mp h).symm), Nat.add_zero, hInv x]
      simp [bump, hx]

theorem sa_inv_clear {w : SAWorld} {j : Nat} (hInv : sa_inv w) : sa_inv (clear_inst w j) := by
  rcases hj : w.insts.getD j none with _ | ⟨a, len⟩
  · simp only [clear_inst, hj]
    exact hInv
  · have hpos : 1 ≤ count_refs w.insts a := count_refs_pos (j := j) (by rw [hj]; rfl)
    obtain ⟨r, hr, hcr⟩ := heap_some_of_refs hInv hpos
    simp only [clear_inst, hj]
    by_cases hgt : 1 < (w.heap a).getD 0
    · rw [if_pos hgt]
      intro x
      show count_refs (w.insts.set j none) x = (dec1 w.heap a x).getD 0
      rw [count_refs_set_none, hj]
      by_cases hx : x = a
      · subst hx
        rw [if_pos (show ptr_of (some (x, len)) = some x from rfl), hcr]
        simp [dec1, hr]
      · rw [if_neg (show ¬ ptr_of (some (a, len)) = some x from
          fun h => hx (Option.some_inj.mp h).symm), Nat.sub_zero, hInv x]
        simp [dec1, hx]
    · rw [if_neg hgt]
      have hr1 : r = 1 := by
        rw [hr] at hgt
        simp only [Option.getD_some] at hgt
        omega
      intro x
      show count_refs (w.insts.set j none) x = (free_alloc w.heap a x).getD 0
      rw [count_refs_set_none, hj]
      by_cases hx : x = a
      · subst hx
        rw [if_pos (show ptr_of (some (x, len)) = some x from rfl), hcr, hr1]
        simp [free_alloc]
      · rw [if_neg (show ¬ ptr_of (some (a, len)) = some x from
          fun h => hx (Option.some_inj.mp h).symm), Nat.sub_zero, hInv x]
        simp [free_alloc, hx]

theorem sa_inv_move {w : SAWorld} {j : Nat} (hInv : sa_inv w) : sa_inv (move_from w j) := by
  intro x
  show count_refs ((w.insts.set j none) ++ [w.insts.getD j none]) x = (w.heap x).getD 0
  rw [count_refs_append_one, count_refs_set_none]
  by_cases hq : ptr_of (w.insts.getD j none) = some x
  · have hpos := count_refs_pos hq
    rw [if_pos hq]
    rw [← hInv x] at *
    omega
  · rw [if_neg hq]
    simpa using hInv x

theorem sa_inv_assign {w : SAWorld} {dst src : Nat} (hInv : sa_inv w)
    (hdst : dst < w.insts.length) : sa_inv (copy_assign w dst src) := by
  rcases hsrc : w.insts.getD src none with _ | ⟨a, len⟩
  · simp only [copy_assign, hsrc]
    exact sa_inv_clear hInv
  · by_cases heq : ptr_of (w.insts.getD dst none) = some a
    · simp only [copy_assign, hsrc, if_pos heq]
      exact hInv
    · simp only [copy_assign, hsrc, if_neg heq]
      have hInv2 : sa_inv (clear_inst w dst) := sa_inv_clear hInv
      have hsd : dst ≠ src := by
        intro h
        rw [h, hsrc] at heq
        exact heq rfl
      have hsrc2 : (clear_inst w dst).insts.getD src none = some (a, len) := by
        rcases hd : w.insts.getD dst none with _ | ⟨b, lenb⟩
        · simp only [clear_inst, hd]
          exact hsrc
        · simp only [clear_inst, hd]
          have hset : (w.insts.set dst none).getD src none = some (a, len) := by
            rw [getD_set_ne _ hsd]
            exact hsrc
          split_ifs <;> exact hset
      have hdst2 : (clear_inst w dst).insts.getD dst none = none := by
        rcases hd : w.insts.getD dst none with _ | ⟨b, lenb⟩
        · unfold clear_inst
          rw [hd]
          exact hd
        · simp only [clear_inst, hd]
          split_ifs <;> exact getD_set_self _ hdst none
      have hlen2 : (clear_inst w dst).insts.length = w.insts.length := by
        rcases hd : w.insts.getD dst none with _ | ⟨b, lenb⟩
        · simp only [clear_inst, hd]
        · simp only [clear_inst, hd]
          split_ifs <;> simp [List.length_set]
      have hpos2 : 1 ≤ count_refs (clear_inst w dst).insts a :=
        count_refs_pos (j := src) (by rw [hsrc2]; rfl)
      obtain ⟨r, hr, hcr⟩ := heap_some_of_refs hInv2 hpos2
      intro x
      show count_refs ((clear_inst w dst).insts.set dst (some (a, len))) x =
        (bump (clear_inst w dst).heap a x).getD 0
      rw [count_refs_set_some a len x hdst2 (by omega)]
      by_cases hx : x = a
      · subst hx
        rw [if_pos rfl, hcr]
        simp [bump, hr]
      · rw [if_neg (fun h => hx h.symm), Nat.add_zero, hInv2 x]
        simp [bump, hx]

theorem sa_inv_step {w w2 : SAWorld} (hInv : sa_inv w) (h : SAStep w w2) : sa_inv w2 := by
  cases h with
  | alloc a len hfresh => exact sa_inv_alloc hInv hfresh
  | copy j => exact sa_inv_copy hInv
  | assign dst src hdst => exact sa_inv_assign hInv hdst
  | clear j => exact sa_inv_clear hInv
  | move j => exact sa_inv_move hInv

theorem sa_inv_steps {w w2 : SAWorld} (hInv : sa_inv w)
    (h : Relation.ReflTransGen SAStep w w2) : sa_inv w2 := by
  induction h with
  | refl => exact hInv
  | tail _ hstep ih => exact sa_inv_step ih hstep

theorem clear_inst_length (w : SAWorld) (j : Nat) :
    (clear_inst w j).insts.length = w.insts.length := by
  rcases hd : w.insts.getD j none with _ | ⟨b, lenb⟩
  · simp only [clear_inst, hd]
  · simp only [clear_inst, hd]
    split_ifs <;> simp [List.length_set]

theorem clear_inst_heap_of_ne {w : SAWorld} {j a : Nat}
    (hne : ptr_of (w.insts.getD j none) ≠ some a) :
    (clear_inst w j).heap a = w.heap a := by
  rcases hd : w.insts.getD j none with _ | ⟨b, lenb⟩
  · simp only [clear_inst, hd]
  · rw [hd] at hne
    have hba : a ≠ b := fun h => hne (by rw [h]; rfl)
    simp only [clear_inst, hd]
    split_ifs <;> simp [dec1, free_alloc, hba]

theorem clear_inst_insts_of_ne {w : SAWorld} {j i : Nat} (hij : i ≠ j) :
    (clear_inst w j).insts.getD i none = w.insts.getD i none := by
  rcases hd : w.insts.getD j none with _ | ⟨b, lenb⟩
  · simp only [clear_inst, hd]
  · simp only [clear_inst, hd]
    split_ifs <;> exact getD_set_ne _ (fun h => hij h.symm) none

/-- A world with one allocation of rc 2 referenced by two instances of
length 3. -/
def sample_world : SAWorld :=
  ⟨fun x => if x = 0 then some 2 else none, [some (0, 3), some (0, 3)]⟩

/-- A world with two allocations of rc 1, referenced by instance 0 (length
3) and instance 1 (length 4) respectively. -/
def two_alloc_world : SAWorld :=
  ⟨fun x => if x = 0 then some 1 else if x = 1 then some 1 else none,
   [some (0, 3), some (1, 4)]⟩

/-- C5 counterexample: in a world where instances 0 and 1 both reference
allocation 0 (rc 2), copy-assigning instance 0 from the non-null instance 1
takes the equal-pointer branch of operator= and does nothing: the rc stays
2 instead of incrementing to 3 as the claim states for every copy-assign
from a non-null source. -/
theorem c5_copy_assign_counterexample :
    copy_assign sample_world 0 1 = sample_world ∧
    sample_world.insts.getD 1 none = some (0, 3) ∧
    (copy_assign sample_world 0 1).heap 0 = some 2 ∧
    (some 2 : Option Nat) ≠ some 3 :=
  ⟨rfl, rfl, rfl, by decide⟩

/-- C5 amended: copy-construction from a non-null source yields an instance
with the same pointer and length and increments the rc of the referenced
header by exactly one, leaving every other allocation untouched; two
instances referencing the same allocation are equal by pointer identity and
report the same use_count; clear on one of several instances (rc above 1)
decrements the rc by exactly one and leaves the allocation, the other
instances, and the other allocations intact; copy-assignment from a source
with the same pointer is a no-op, while copy-assignment from a source with
a different pointer first releases the destination's old reference and then
adopts the source's pointer and length, incrementing the rc of the newly
referenced header by exactly one and leaving the other instances alone; and
along any sequence of operations the rc of every allocation equals the
number of live instances referencing it. -/
theorem c5_sharing_amended (w : SAWorld) (j k : Nat) (dst src a len l1 l2 : Nat) :
    (w.insts.getD j none = some (a, len) →
      (copy_from w j).insts = w.insts ++ [some (a, len)] ∧
      (copy_from w j).heap a = (w.heap a).map (· + 1) ∧
      (∀ b, b ≠ a → (copy_from w j).heap b = w.heap b)) ∧
    (w.insts.getD j none = some (a, l1) → w.insts.getD k none = some (a, l2) →
      ptr_of (w.insts.getD j none) = ptr_of (w.insts.getD k none) ∧
      use_count w.heap (w.insts.getD j none) = use_count w.heap (w.insts.getD k none)) ∧
    (w.insts.getD j none = some (a, len) → 1 < (w.heap a).getD 0 →
      (clear_inst w j).heap a = some ((w.heap a).getD 0 - 1) ∧
      (clear_inst w j).insts.getD j none = none ∧
      (∀ i, i ≠ j → (clear_inst w j).insts.getD i none = w.insts.getD i none) ∧
      (∀ b, b ≠ a → (clear_inst w j).heap b = w.heap b)) ∧
    (ptr_of (w.insts.getD dst none) = ptr_of (w.insts.getD src none) →
      w.insts.getD src none ≠ none →
      copy_assign w dst src = w) ∧
    (w.insts.getD src none = some (a, len) →
      ptr_of (w.insts.getD dst none) ≠ some a →
      dst < w.insts.length →
      (copy_assign w dst src).heap = bump (clear_inst w dst).heap a ∧
      (copy_assign w dst src).insts = (clear_inst w dst).insts.set dst (some (a, len)) ∧
      (copy_assign w dst src).insts.getD dst none = some (a, len) ∧
      (copy_assign w dst src).heap a = (w.heap a).map (· + 1) ∧
      (∀ i, i ≠ dst → (copy_assign w dst src).insts.getD i none = w.insts.getD i none)) ∧
    (∀ w2, sa_inv w → Relation.ReflTransGen SAStep w w2 → sa_inv w2) := by
  refine ⟨?_, ?_, ?_, ?_, ?_, fun w2 h1 h2 => sa_inv_steps h1 h2⟩
  · intro hj
    refine ⟨?_, ?_, ?_⟩
    · simp only [copy_from, hj]
    · simp only [copy_from, hj]
      simp [bump]
    · intro b hb
      simp only [copy_from, hj]
      simp [bump, hb]
  · intro hj hk
    rw [hj, hk]
    simp [ptr_of, use_count]
  · intro hj hgt
    have hjl : j < w.insts.length := getD_lt_length hj
    rcases hh : w.heap a with _ | rc
    · rw [hh] at hgt
      simp at hgt
    simp only [clear_inst, hj, if_pos hgt]
    refine ⟨?_, ?_, ?_, ?_⟩
    · simp [dec1, hh]
    · exact getD_set_self _ hjl none
    · intro i hi
      exact getD_set_ne _ (fun h => hi h.symm) none
    · intro b hb
      simp [dec1, hb]
  · intro heq hne
    rcases hsrc : w.insts.getD src none with _ | ⟨b, lenb⟩
    · exact absurd hsrc hne
    · rw [hsrc, show ptr_of (some (b, lenb)) = some b from rfl] at heq
      simp only [copy_assign, hsrc, if_pos heq]
  · intro hsrc hne hdl
    have hstruct : copy_assign w dst src =
        ⟨bump (clear_inst w dst).heap a, (clear_inst w dst).insts.set dst (some (a, len))⟩ := by
      simp only [copy_assign, hsrc, if_neg hne]
    refine ⟨by rw [hstruct], by rw [hstruct], ?_, ?_, ?_⟩
    · rw [hstruct]
      show ((clear_inst w dst).insts.set dst (some (a, len))).getD dst none = some (a, len)
      exact getD_set_self _ (by rw [clear_inst_length]; exact hdl) _
    · rw [hstruct]
      show (bump (clear_inst w dst).heap a) a = (w.heap a).map (· + 1)
      rw [show (bump (clear_inst w dst).heap a) a =
        ((clear_inst w dst).heap a).map (· + 1) from by simp [bump]]
      rw [clear_inst_heap_of_ne hne]
    · intro i hi
      rw [hstruct]
      show ((clear_inst w dst).insts.set dst (some (a, len))).getD i none =
        w.insts.getD i none
      rw [getD_set_ne _ (fun h => hi h.symm), clear_inst_insts_of_ne hi]

/-- Witness for C5: every branch of the amended statement, at a world with
one allocation of rc 2 referenced by two instances (copy-construction, the
pointer-identity corollary, clear, the equal-pointer assignment no-op, and
the invariant after one copy-construction step), and at a world with two
rc 1 allocations for the differing-pointer assignment. -/
theorem c5_sharing_amended_witness :
    ((copy_from sample_world 0).insts = sample_world.insts ++ [some (0, 3)] ∧
     (copy_from sample_world 0).heap 0 = (sample_world.heap 0).map (· + 1)) ∧
    (ptr_of (sample_world.insts.getD 0 none) = ptr_of (sample_world.insts.getD 1 none) ∧
     use_count sample_world.heap (sample_world.insts.getD 0 none) =
       use_count sample_world.heap (sample_world.insts.getD 1 none)) ∧
    ((clear_inst sample_world 0).heap 0 = some ((sample_world.heap 0).getD 0 - 1) ∧
     (clear_inst sample_world 0).insts.getD 0 none = none ∧
     (clear_inst sample_world 0).insts.getD 1 none = sample_world.insts.getD 1 none) ∧
    copy_assign sample_world 0 1 = sample_world ∧
    ((copy_assign two_alloc_world 0 1).insts.getD 0 none = some (1, 4) ∧
     (copy_assign two_alloc_world 0 1).heap 1 = (two_alloc_world.heap 1).map (· + 1) ∧
     (copy_assign two_alloc_world 0 1).insts.getD 1 none =
       two_alloc_world.insts.getD 1 none) ∧
    sa_inv (copy_from sample_world 0) := by
  have hinv_sample : sa_inv sample_world := by
    intro x
    by_cases hx : x = 0
    · subst hx
      decide
    · have h1 : count_refs sample_world.insts x = 0 := by
        show count_refs [some (0, 3), some (0, 3)] x = 0
        rw [count_refs_cons, count_refs_cons, count_refs_nil,
          if_neg (show ¬ ptr_of (some (0, 3)) = some x from
            fun h => hx (Option.some_inj.mp h).symm)]
      have h2 : sample_world.heap x = none := by
        show (if x = 0 then some 2 else none) = none
        rw [if_neg hx]
      rw [h1, h2]
      rfl
  refine ⟨?_, ?_, ?_, ?_, ?_, ?_⟩
  · have h := (c5_sharing_amended sample_world 0 1 0 1 0 3 3 3).1 (by decide)
    exact ⟨h.1, h.2.1⟩
  · exact (c5_sharing_amended sample_world 0 1 0 1 0 3 3 3).2.1 (by decide) (by decide)
  · have h := (c5_sharing_amended sample_world 0 1 0 1 0 3 3 3).2.2.1 (by decide) (by decide)
    exact ⟨h.1, h.2.1, h.2.2.1 1 (by decide)⟩
  · exact (c5_sharing_amended sample_world 0 1 0 1 0 3 3 3).2.2.2.1 (by decide) (by decide)
  · have h := (c5_sharing_amended two_alloc_world 0 1 0 1 1 4 3 3).2.2.2.2.1
      (by decide) (by decide) (by decide)
    exact ⟨h.2.2.1, h.2.2.2.1, h.2.2.2.2 1 (by decide)⟩
  · exact (c5_sharing_amended sample_world 0 1 0 1 0 3 3 3).2.2.2.2.2
      (copy_from sample_world 0) hinv_sample
      (Relation.ReflTransGen.single (SAStep.copy sample_world 0))

/-- C10: move-construction (and move-assignment, which delegates to it
after clearing) transfers the reference without touching any reference
count: the heap is unchanged (in particular the rc of the transferred
allocation), the new instance holds the pointer and length of the source,
and the source slot is left null. -/
theorem c10_move_transfer (w : SAWorld) (j a len : Nat)
    (hj : w.insts.getD j none = some (a, len)) :
    (move_from w j).heap = w.heap ∧
    (move_from w j).heap a = w.heap a ∧
    (move_from w j).insts.getD j none = none ∧
    (move_from w j).insts.getD w.insts.length none = some (a, len) ∧
    (move_from w j).insts.length = w.insts.length + 1 := by
  have hjl : j < w.insts.length := getD_lt_length hj
  refine ⟨rfl, rfl, ?_, ?_, ?_⟩
  · show ((w.insts.set j none) ++ [w.insts.getD j none]).getD j none = none
    rw [List.getD_eq_getElem?_getD,
      List.getElem?_append_left (by rw [List.length_set]; exact hjl),
      ← List.getD_eq_getElem?_getD, getD_set_self _ hjl]
  · show ((w.insts.set j none) ++ [w.insts.getD j none]).getD w.insts.length none =
      some (a, len)
    rw [List.getD_eq_getElem?_getD,
      List.getElem?_append_right (by simp [List.length_set])]
    simp only [List.length_set, Nat.sub_self, List.getElem?_cons_zero, Option.getD_some]
    exact hj
  · show ((w.insts.set j none) ++ [w.insts.getD j none]).length = w.insts.length + 1
    simp [List.length_set]

/-- Witness for C10 at a world with one instance referencing allocation 0 of
rc 1 and length 2. -/
theorem c10_move_transfer_witness :
    (move_from ⟨fun x => if x = 0 then some 1 else none, [some (0, 2)]⟩ 0).heap =
      (⟨fun x => if x = 0 then some 1 else none, [some (0, 2)]⟩ : SAWorld).heap ∧
    (move_from ⟨fun x => if x = 0 then some 1 else none, [some (0, 2)]⟩ 0).heap 0 =
      (⟨fun x => if x = 0 then some 1 else none, [some (0, 2)]⟩ : SAWorld).heap 0 ∧
    (move_from ⟨fun x => if x = 0 then some 1 else none, [some (0, 2)]⟩ 0).insts.getD 0 none =
      none ∧
    (move_from ⟨fun x => if x = 0 then some 1 else none, [some (0, 2)]⟩ 0).insts.getD
      (⟨fun x => if x = 0 then some 1 else none, [some (0, 2)]⟩ : SAWorld).insts.length none =
      some (0, 2) ∧
    (move_from ⟨fun x => if x = 0 then some 1 else none, [some (0, 2)]⟩ 0).insts.length =
      (⟨fun x => if x = 0 then some 1 else none, [some (0, 2)]⟩ : SAWorld).insts.length + 1 :=
  c10_move_transfer ⟨fun x => if x = 0 then some 1 else none, [some (0, 2)]⟩ 0 0 2 rfl

/-- C2 counterexample: claim() on a default-constructed (null) SharedArray
has use_count 0, which is not 1, yet it does not fail: it returns an empty
Array and leaves the instance null, contradicting the claim that claim()
fails loudly whenever use_count() is not 1. -/
theorem c2_claim_counterexample :
    use_count (fun _ => none) none = 0 ∧
    (0 : Nat) ≠ 1 ∧
    claim_op (fun _ => none) none = Except.ok (⟨none, 0⟩, none) :=
  ⟨rfl, by decide, rfl⟩

/-- C2 amended: claim() fails (throws) exactly when use_count() is greater
than 1. When use_count() equals 1 and the length is positive, the returned
Array owns the exact pointer the instance referenced and the instance is
left null with length 0 (never a copy). When the instance references a
zero-length allocation it is left untouched and an empty Array is returned,
and a null instance likewise yields an empty Array without failing. -/
theorem c2_claim_amended (h : Nat → Option Nat) (r : Option (Nat × Nat)) :
    ((∃ e, claim_op h r = Except.error e) ↔ 1 < use_count h r) ∧
    (∀ a len, r = some (a, len) → use_count h r = 1 → 0 < len →
      claim_op h r = Except.ok (⟨some a, len⟩, none)) ∧
    (∀ a, r = some (a, 0) → ¬ 1 < use_count h r →
      claim_op h r = Except.ok (⟨none, 0⟩, r)) ∧
    (r = none → claim_op h r = Except.ok (⟨none, 0⟩, none)) := by
  refine ⟨⟨?_, ?_⟩, ?_, ?_, ?_⟩
  · rintro ⟨e, he⟩
    by_contra huc
    unfold claim_op at he
    rw [if_neg huc] at he
    rcases r with _ | ⟨a, len⟩
    · simp at he
    · by_cases hl : 0 < len
      · simp [hl] at he
      · simp [hl] at he
  · intro huc
    exact ⟨(), by unfold claim_op; rw [if_pos huc]⟩
  · rintro a len rfl h1 hl
    unfold claim_op
    rw [if_neg (by rw [h1]; omega)]
    simp [hl]
  · rintro a rfl huc
    unfold claim_op
    rw [if_neg huc]
    simp
  · rintro rfl
    unfold claim_op
    simp [use_count]

/-- Witness for C2: with rc 2 claim fails; with rc 1 and length 5 the exact
pointer moves out and the instance is nulled; a zero-length instance and a
null instance both succeed with an empty Array. -/
theorem c2_claim_amended_witness :
    1 < use_count (fun x => if x = 0 then some 2 else none) (some (0, 5)) ∧
    (∃ e, claim_op (fun x => if x = 0 then some 2 else none) (some (0, 5)) =
      Except.error e) ∧
    claim_op (fun x => if x = 0 then some 1 else none) (some (0, 5)) =
      Except.ok (⟨some 0, 5⟩, none) ∧
    claim_op (fun x => if x = 0 then some 1 else none) (some (0, 0)) =
      Except.ok (⟨none, 0⟩, some (0, 0)) ∧
    claim_op (fun x => if x = 0 then some 1 else none) none =
      Except.ok (⟨none, 0⟩, none) := by
  refine ⟨by decide, ?_, ?_, ?_, ?_⟩
  · exact (c2_claim_amended _ _).1.mpr (by decide)
  · exact (c2_claim_amended _ _).2.1 0 5 rfl (by decide) (by decide)
  · exact (c2_claim_amended _ _).2.2.1 0 rfl (by decide)
  · exact (c2_claim_amended _ _).2.2.2 rfl

end CppSlice
